import Mathlib

/-!
Verification development for a recipe-cataloging web application.

The embedding is shallow: request handlers become pure functions over an
explicit database state, Python exceptions become `Option`/`Except`, and
Python floats are modelled as rationals (`ℚ`).  The CPython `float`
constructor is modelled on decimal literals (optional surrounding
whitespace, sign, digits with an optional fractional part and exponent);
the `inf`/`nan` spellings and underscore digit separators have no rational
counterpart and are outside the model.  JSON-typed database columns are
modelled by an explicit JSON value type.
-/

set_option maxRecDepth 4000

/-- Characters treated as whitespace by Python's `str.strip` and by the
regular-expression class `\s` (ASCII range). -/
def pyIsSpace (c : Char) : Bool :=
  c = ' ' || c = '\t' || c = '\n' || c = '\r' || c = '\x0b' || c = '\x0c'

/-- Model of Python `str.strip()`: remove leading and trailing whitespace. -/
def pyStrip (s : String) : String :=
  String.mk (((s.toList.dropWhile pyIsSpace).reverse.dropWhile pyIsSpace).reverse)

/-- Model of Python `str.lower()` on ASCII data. -/
def pyLower (s : String) : String :=
  String.mk (s.toList.map Char.toLower)

/-- Model of Python `str.split(sep)` for a one-character separator: split at
every occurrence, keeping empty parts. -/
def splitOnChar (c : Char) : List Char → List (List Char)
  | [] => [[]]
  | x :: xs =>
    let r := splitOnChar c xs
    if x = c then [] :: r
    else
      match r with
      | [] => [[x]]
      | y :: ys => (x :: y) :: ys

/-- Numeric value of a list of decimal digit characters. -/
def digitsVal (cs : List Char) : ℕ :=
  cs.foldl (fun a c => a * 10 + (c.toNat - 48)) 0

/-- Check that every character in the list is a decimal digit. -/
def allDigits (cs : List Char) : Bool :=
  cs.all Char.isDigit

/-- Mantissa of a decimal literal: digits with at most one dot and at least
one digit overall. -/
def parseMantissa (cs : List Char) : Option ℚ :=
  match splitOnChar '.' cs with
  | [ip] =>
    if ip ≠ [] ∧ allDigits ip then some (digitsVal ip) else none
  | [ip, fp] =>
    if (ip ≠ [] ∨ fp ≠ []) ∧ allDigits ip ∧ allDigits fp then
      some ((digitsVal ip : ℚ) + (digitsVal fp : ℚ) / (10 ^ fp.length))
    else none
  | _ => none

/-- Exponent of a decimal literal: an optional sign followed by digits. -/
def parseExpPart : List Char → Option ℤ
  | '+' :: ds => if ds ≠ [] ∧ allDigits ds then some (digitsVal ds : ℤ) else none
  | '-' :: ds => if ds ≠ [] ∧ allDigits ds then some (-(digitsVal ds : ℤ)) else none
  | ds => if ds ≠ [] ∧ allDigits ds then some (digitsVal ds : ℤ) else none

/-- Magnitude part of a decimal literal: a mantissa with an optional
exponent introduced by `e` (input already lowercased). -/
def pyFloatMag (cs : List Char) : Option ℚ :=
  match splitOnChar 'e' cs with
  | [m] => parseMantissa m
  | [m, e] =>
    match parseMantissa m, parseExpPart e with
    | some mq, some ex => some (mq * (10 : ℚ) ^ ex)
    | _, _ => none
  | _ => none

/-- Model of CPython's `float` constructor on decimal literals, valued in
`ℚ`: surrounding whitespace is stripped, an optional sign precedes the
magnitude, and the exponent marker is case-insensitive. -/
def pyFloat (s : String) : Option ℚ :=
  match (pyStrip s).toList.map Char.toLower with
  | [] => none
  | '+' :: rest => pyFloatMag rest
  | '-' :: rest => (pyFloatMag rest).map (fun q => -q)
  | cs => pyFloatMag cs

/-- Translation of `parse_quantity` from `main.py`: an empty string is
rejected, then the string is tried as a float, then as a fraction split at
`/` into exactly two float parts with the division-by-zero and unpacking
errors caught. -/
def parse_quantity (quantity_str : String) : Option ℚ :=
  if quantity_str = "" then none
  else
    match pyFloat quantity_str with
    | some v => some v
    | none =>
      if '/' ∈ quantity_str.toList then
        match splitOnChar '/' quantity_str.toList with
        | [num, den] =>
          match pyFloat (String.mk num), pyFloat (String.mk den) with
          | some n, some d => if d = 0 then none else some (n / d)
          | _, _ => none
        | _ => none
      else none

/-- Rendering of the claimed contract for the quantity parser: return the
decimal value when the whole string parses; otherwise, when the string
contains exactly one slash and both sides parse as decimals with a nonzero
denominator, return the quotient; otherwise return `none`. -/
def parse_quantity_claim (s : String) : Option ℚ :=
  match pyFloat s with
  | some v => some v
  | none =>
    if s.toList.count '/' = 1 then
      match splitOnChar '/' s.toList with
      | [num, den] =>
        match pyFloat (String.mk num), pyFloat (String.mk den) with
        | some n, some d => if d = 0 then none else some (n / d)
        | _, _ => none
      | _ => none
    else none

/-- JSON values, the model of what Python's `json.loads` produces and of
what a SQLAlchemy `JSON` column stores. -/
inductive Jval where
  | jnull
  | jbool (b : Bool)
  | jnum (q : ℚ)
  | jstr (s : String)
  | jarr (elems : List Jval)
  | jobj (mems : List (String × Jval))

open Jval

/-- First-match lookup in an association list, the model of indexing a
Python dict whose keys are unique. -/
def alookup {α : Type} : List (String × α) → String → Option α
  | [], _ => none
  | (k, v) :: rest, key => if k = key then some v else alookup rest key

/-- Insert a key into an object under construction: a duplicate key keeps
its original position and receives the newer value, as in a Python dict. -/
def insertKey : List (String × Jval) → String → Jval → List (String × Jval)
  | [], k, v => [(k, v)]
  | (k', v') :: rest, k, v =>
    if k' = k then (k', v) :: rest else (k', v') :: insertKey rest k v

/-- Python truthiness of a JSON value: `None`, `False`, zero, and empty
strings/lists/dicts are falsy. -/
def pyTruthy : Jval → Bool
  | jnull => false
  | jbool b => b
  | jnum q => q ≠ 0
  | jstr s => s ≠ ""
  | jarr l => !l.isEmpty
  | jobj l => !l.isEmpty

/-- Check whether a JSON value is an object. -/
def Jval.isObj : Jval → Bool
  | jobj _ => true
  | _ => false

/-- Check whether a JSON value is an array. -/
def Jval.isArr : Jval → Bool
  | jarr _ => true
  | _ => false

/-- Whitespace characters of the JSON grammar. -/
def jsonWs (c : Char) : Bool :=
  c = ' ' || c = '\t' || c = '\n' || c = '\r'

/-- Single-character string escapes of the JSON grammar. -/
def escChar : Char → Option Char
  | '"' => some '"'
  | '\\' => some '\\'
  | '/' => some '/'
  | 'b' => some (Char.ofNat 8)
  | 'f' => some (Char.ofNat 12)
  | 'n' => some '\n'
  | 'r' => some '\r'
  | 't' => some '\t'
  | _ => none

/-- Value of a hexadecimal digit character. -/
def hexVal (c : Char) : Option ℕ :=
  if '0' ≤ c ∧ c ≤ '9' then some (c.toNat - 48)
  else if 'a' ≤ c ∧ c ≤ 'f' then some (c.toNat - 87)
  else if 'A' ≤ c ∧ c ≤ 'F' then some (c.toNat - 55)
  else none

/-- Parse the remainder of a JSON string literal, after the opening quote.
Unescaped control characters are rejected, as in Python's `json`. -/
def parseJString : List Char → Option (String × List Char)
  | [] => none
  | '"' :: rest => some ("", rest)
  | '\\' :: 'u' :: h1 :: h2 :: h3 :: h4 :: rest =>
    match hexVal h1, hexVal h2, hexVal h3, hexVal h4 with
    | some a, some b, some c, some d =>
      (parseJString rest).map
        (fun p => (String.mk (Char.ofNat (((a * 16 + b) * 16 + c) * 16 + d) :: p.1.toList), p.2))
    | _, _, _, _ => none
  | '\\' :: e :: rest =>
    match escChar e with
    | some c => (parseJString rest).map (fun p => (String.mk (c :: p.1.toList), p.2))
    | none => none
  | c :: rest =>
    if c.toNat < 32 then none
    else (parseJString rest).map (fun p => (String.mk (c :: p.1.toList), p.2))

/-- Integer part of a JSON number: `0` or a nonzero digit followed by
digits (no leading zeros). -/
def parseJInt : List Char → Option (List Char × List Char)
  | '0' :: r => some (['0'], r)
  | c :: r =>
    if c.isDigit ∧ c ≠ '0' then
      some (c :: (r.takeWhile Char.isDigit), r.dropWhile Char.isDigit)
    else none
  | [] => none

/-- Optional fractional part of a JSON number: a dot followed by at least
one digit, otherwise nothing is consumed. -/
def parseJFrac : List Char → ℚ × List Char
  | '.' :: r =>
    let ds := r.takeWhile Char.isDigit
    if ds = [] then (0, '.' :: r)
    else ((digitsVal ds : ℚ) / (10 : ℚ) ^ ds.length, r.dropWhile Char.isDigit)
  | cs => (0, cs)

/-- Optional exponent part of a JSON number: `e` or `E`, an optional sign,
and at least one digit, otherwise nothing is consumed. -/
def parseJExp : List Char → ℤ × List Char
  | e :: '+' :: r =>
    if (e = 'e' ∨ e = 'E') ∧ r.takeWhile Char.isDigit ≠ [] then
      ((digitsVal (r.takeWhile Char.isDigit) : ℤ), r.dropWhile Char.isDigit)
    else (0, e :: '+' :: r)
  | e :: '-' :: r =>
    if (e = 'e' ∨ e = 'E') ∧ r.takeWhile Char.isDigit ≠ [] then
      (-(digitsVal (r.takeWhile Char.isDigit) : ℤ), r.dropWhile Char.isDigit)
    else (0, e :: '-' :: r)
  | e :: r =>
    if (e = 'e' ∨ e = 'E') ∧ r.takeWhile Char.isDigit ≠ [] then
      ((digitsVal (r.takeWhile Char.isDigit) : ℤ), r.dropWhile Char.isDigit)
    else (0, e :: r)
  | [] => (0, [])

/-- Parse a JSON number: optional minus sign, integer part, optional
fraction and exponent. -/
def parseJNumber (cs : List Char) : Option (ℚ × List Char) :=
  match cs with
  | '-' :: r =>
    match parseJInt r with
    | some (ds, r1) =>
      match parseJFrac r1 with
      | (fq, r2) =>
        match parseJExp r2 with
        | (ex, r3) => some (-(((digitsVal ds : ℚ) + fq) * (10 : ℚ) ^ ex), r3)
    | none => none
  | _ =>
    match parseJInt cs with
    | some (ds, r1) =>
      match parseJFrac r1 with
      | (fq, r2) =>
        match parseJExp r2 with
        | (ex, r3) => some ((((digitsVal ds : ℚ) + fq) * (10 : ℚ) ^ ex), r3)
    | none => none

mutual

/-- Parse one JSON value at the head of the input (leading whitespace
already consumed).  The fuel argument bounds recursion depth. -/
def parseValue : ℕ → List Char → Option (Jval × List Char)
  | 0, _ => none
  | Nat.succ fuel, cs =>
    match cs with
    | '{' :: rest =>
      match rest.dropWhile jsonWs with
      | '}' :: r2 => some (jobj [], r2)
      | r => parseMembers fuel r []
    | '[' :: rest =>
      match rest.dropWhile jsonWs with
      | ']' :: r2 => some (jarr [], r2)
      | r => parseElems fuel r []
    | '"' :: rest => (parseJString rest).map (fun p => (jstr p.1, p.2))
    | 't' :: 'r' :: 'u' :: 'e' :: rest => some (jbool true, rest)
    | 'f' :: 'a' :: 'l' :: 's' :: 'e' :: rest => some (jbool false, rest)
    | 'n' :: 'u' :: 'l' :: 'l' :: rest => some (jnull, rest)
    | _ => (parseJNumber cs).map (fun p => (jnum p.1, p.2))

/-- Parse the members of a JSON object after the opening brace, given the
members accumulated so far. -/
def parseMembers : ℕ → List Char → List (String × Jval) → Option (Jval × List Char)
  | 0, _, _ => none
  | Nat.succ fuel, cs, acc =>
    match cs with
    | '"' :: rest =>
      match parseJString rest with
      | none => none
      | some (key, r1) =>
        match r1.dropWhile jsonWs with
        | ':' :: r3 =>
          match parseValue fuel (r3.dropWhile jsonWs) with
          | none => none
          | some (v, r4) =>
            match r4.dropWhile jsonWs with
            | ',' :: r6 => parseMembers fuel (r6.dropWhile jsonWs) (insertKey acc key v)
            | '}' :: r6 => some (jobj (insertKey acc key v), r6)
            | _ => none
        | _ => none
    | _ => none

/-- Parse the elements of a JSON array after the opening bracket, given
the elements accumulated so far. -/
def parseElems : ℕ → List Char → List Jval → Option (Jval × List Char)
  | 0, _, _ => none
  | Nat.succ fuel, cs, acc =>
    match parseValue fuel cs with
    | none => none
    | some (v, r1) =>
      match r1.dropWhile jsonWs with
      | ',' :: r3 => parseElems fuel (r3.dropWhile jsonWs) (acc ++ [v])
      | ']' :: r3 => some (jarr (acc ++ [v]), r3)
      | _ => none

end

/-- Model of Python's `json.loads`: parse one value with surrounding
whitespace allowed, rejecting trailing data.  The non-standard
`NaN`/`Infinity` spellings accepted by Python have no rational counterpart
and are outside the model. -/
def json_loads (s : String) : Option Jval :=
  let cs := s.toList.dropWhile jsonWs
  match parseValue (cs.length + 1) cs with
  | some (v, rest) => if rest.dropWhile jsonWs = [] then some v else none
  | none => none

/-- Check that, after a closing brace, the text continues with optional
whitespace and a closing code fence, as the tail `\s*` and backticks of the
extraction pattern in `main.py` require. -/
def closeOk (rest : List Char) : Bool :=
  (rest.dropWhile pyIsSpace).take 3 = ['`', '`', '`']

/-- Greedy search for the last closing brace whose tail matches the rest
of the pattern; returns the capture from the current position through that
brace, mirroring the greedy `.*` of the extraction pattern. -/
def lastBrace : List Char → Option (List Char)
  | [] => none
  | c :: rest =>
    match lastBrace rest with
    | some g => some (c :: g)
    | none => if c = '}' ∧ closeOk rest then some ['}'] else none

/-- Match the part of the extraction pattern after the opening backticks
and optional `json` tag: optional whitespace, then a brace-delimited
capture. -/
def matchAfterTicks (rest : List Char) : Option (List Char) :=
  match rest.dropWhile pyIsSpace with
  | '{' :: r => (lastBrace r).map (fun g => '{' :: g)
  | _ => none

/-- Try to match the fenced-block pattern at the current position: three
backticks, an optional `json` tag (preferred when present, with
backtracking), whitespace, and a brace-delimited capture. -/
def tryMatchAt (cs : List Char) : Option (List Char) :=
  match cs with
  | '`' :: '`' :: '`' :: rest =>
    if rest.take 4 = ['j', 's', 'o', 'n'] then
      match matchAfterTicks (rest.drop 4) with
      | some g => some g
      | none => matchAfterTicks rest
    else matchAfterTicks rest
  | _ => none

/-- Model of `re.search` for the fenced-block pattern of
`parse_llm_json_output`: scan start positions left to right and return the
brace-delimited capture of the first position that matches. -/
def searchFence : List Char → Option (List Char)
  | [] => none
  | c :: cs =>
    match tryMatchAt (c :: cs) with
    | some g => some g
    | none => searchFence cs

/-- Translation of `parse_llm_json_output` from `main.py`: an empty input
is rejected; the fenced-block capture is parsed when the pattern matches,
otherwise the entire raw string is parsed; a JSON decoding failure yields
`none`. -/
def parse_llm_json_output (raw_string : String) : Option Jval :=
  if raw_string = "" then none
  else
    match searchFence raw_string.toList with
    | some g => json_loads (String.mk g)
    | none => json_loads raw_string

/-- Row of the `transcripts` table from `models.py`. -/
structure TranscriptRow where
  id : ℕ
  full_text : String
  status : String
  recipe_id : Option ℕ
deriving DecidableEq

/-- Row of the `recipes` table from `models.py`; JSON-typed columns hold
arbitrary JSON values. -/
structure RecipeRow where
  id : ℕ
  recipe_name : Jval
  provenance : Option Jval
  items : Jval
  chef_notes : Jval

/-- Database state: the two tables plus the autoincrement counters. -/
structure DB where
  transcripts : List TranscriptRow
  recipes : List RecipeRow
  nextTid : ℕ
  nextRid : ℕ

/-- Errors surfaced by the request handlers (HTTP 404/500 and an uncaught
Python exception escaping a handler). -/
inductive GenError where
  | notFound
  | serviceFailed
  | invalidStructure
  | attributeError
deriving DecidableEq

/-- Model of `d.get(k) or dflt` on a parsed JSON object: the stored value
when present and truthy, the default otherwise. -/
def jgetOr (d : List (String × Jval)) (k : String) (dflt : Jval) : Jval :=
  match alookup d k with
  | some v => if pyTruthy v then v else dflt
  | none => dflt

/-- Construction of the new `models.Recipe` in
`generate_recipe_from_transcript`: every default is applied through
Python's falsy-coalescing `or`. -/
def mkRecipeFromData (rid : ℕ) (d : List (String × Jval)) : RecipeRow :=
  { id := rid
    recipe_name := jgetOr d "recipe_name" (jstr "Untitled Recipe")
    provenance :=
      match alookup d "provenance" with
      | some v => if pyTruthy v then some v else none
      | none => none
    items := jgetOr d "items" (jarr [])
    chef_notes := jgetOr d "chef_notes" (jarr []) }

/-- Rendering of the claimed construction of the new Recipe: defaults
apply exactly when the corresponding field is missing from the parsed
object. -/
def mkRecipeClaim (rid : ℕ) (d : List (String × Jval)) : RecipeRow :=
  { id := rid
    recipe_name := (alookup d "recipe_name").getD (jstr "Untitled Recipe")
    provenance := alookup d "provenance"
    items := (alookup d "items").getD (jarr [])
    chef_notes := (alookup d "chef_notes").getD (jarr []) }

/-- Translation of `generate_recipe_from_transcript` from `main.py` over
the explicit database state.  The structuring-service response is passed
in as an oracle value (`none` models a failed call).  The ORM session's
uncommitted mutations are discarded on every error path and written to the
database state only by the single commit, which models SQLAlchemy's
rollback of an uncommitted session; a non-object parse result makes the
untyped `.get` access raise, which surfaces as an uncommitted error. -/
def generate_recipe_from_transcript (db : DB) (transcript_id : ℕ)
    (transcript_text : String) (llm : Option String) :
    DB × Except GenError RecipeRow :=
  match db.transcripts.find? (fun t => t.id = transcript_id) with
  | none => (db, .error .notFound)
  | some _ =>
    match llm with
    | none => (db, .error .serviceFailed)
    | some raw =>
      if raw = "" then (db, .error .serviceFailed)
      else
        match parse_llm_json_output raw with
        | none => (db, .error .invalidStructure)
        | some rd =>
          if pyTruthy rd then
            match rd with
            | jobj d =>
              let r := mkRecipeFromData db.nextRid d
              ({ db with
                  transcripts := db.transcripts.map (fun t =>
                    if t.id = transcript_id then
                      { t with full_text := transcript_text,
                               status := "processed",
                               recipe_id := some r.id }
                    else t)
                  recipes := db.recipes ++ [r]
                  nextRid := db.nextRid + 1 },
               .ok r)
            | _ => (db, .error .attributeError)
          else (db, .error .invalidStructure)

/-- Translation of `create_transcript_and_return_editor` from `main.py`:
store the posted text with status `pending` and return the new row. -/
def create_transcript_and_return_editor (db : DB) (full_text : String) :
    DB × TranscriptRow :=
  let t : TranscriptRow :=
    { id := db.nextTid, full_text := full_text, status := "pending", recipe_id := none }
  ({ db with transcripts := db.transcripts ++ [t], nextTid := db.nextTid + 1 }, t)

/-- Zip three lists, truncating to the shortest, as Python's `zip`. -/
def zip3 {α β γ : Type} : List α → List β → List γ → List (α × β × γ)
  | a :: as, b :: bs, c :: cs => (a, b, c) :: zip3 as bs cs
  | _, _, _ => []

/-- Items list built by the form handlers of `main.py`: one JSON object
per zipped triple whose name is truthy. -/
def formItems (item_quantity item_unit item_name : List String) : List Jval :=
  (zip3 item_quantity item_unit item_name).filterMap (fun x =>
    if x.2.2 ≠ "" then
      some (jobj [("quantity", jstr x.1), ("unit", jstr x.2.1), ("itemName", jstr x.2.2)])
    else none)

/-- Translation of `create_recipe_from_form` from `main.py`. -/
def create_recipe_from_form (db : DB) (recipe_name provenance : String)
    (item_quantity item_unit item_name : List String)
    (chef_note : Option (List String)) : DB × RecipeRow :=
  let r : RecipeRow :=
    { id := db.nextRid
      recipe_name := jstr recipe_name
      provenance := some (jstr provenance)
      items := jarr (formItems item_quantity item_unit item_name)
      chef_notes := jarr ((chef_note.getD []).map jstr) }
  ({ db with recipes := db.recipes ++ [r], nextRid := db.nextRid + 1 }, r)

/-- Translation of `update_recipe_and_return_cookbook` from `main.py`. -/
def update_recipe_and_return_cookbook (db : DB) (recipe_id : ℕ)
    (recipe_name provenance : String)
    (item_quantity item_unit item_name : List String)
    (chef_note : Option (List String)) : DB × Except GenError Unit :=
  match db.recipes.find? (fun r => r.id = recipe_id) with
  | none => (db, .error .notFound)
  | some _ =>
    ({ db with recipes := db.recipes.map (fun r =>
        if r.id = recipe_id then
          { r with recipe_name := jstr recipe_name
                   provenance := some (jstr provenance)
                   items := jarr (formItems item_quantity item_unit item_name)
                   chef_notes := jarr ((chef_note.getD []).map jstr) }
        else r) },
     .ok ())

/-- Translation of `delete_recipe` from `main.py`.  Clearing the link of a
referencing transcript models the `ondelete="SET NULL"` foreign key
declared in `models.py` (equivalently, the ORM relationship's null-out of
dependent rows at flush time). -/
def delete_recipe (db : DB) (recipe_id : ℕ) : DB × Except GenError Unit :=
  match db.recipes.find? (fun r => r.id = recipe_id) with
  | none => (db, .error .notFound)
  | some _ =>
    ({ db with
        recipes := db.recipes.filter (fun r => r.id ≠ recipe_id)
        transcripts := db.transcripts.map (fun t =>
          if t.recipe_id = some recipe_id then { t with recipe_id := none } else t) },
     .ok ())

/-- One line item of a recipe's JSON items list.  The embedding covers the
shape produced by the form handlers and described in the schema: string
fields that may each be absent (`dict.get` returning `None`). -/
structure LineItem where
  itemName : Option String
  quantity : Option String
  unit : Option String
deriving DecidableEq

/-- A recipe as seen by the ingredient aggregator: its items list. -/
structure AggRecipe where
  items : List LineItem
deriving DecidableEq

/-- Inner aggregation bucket: unit → summed quantity, in insertion order. -/
abbrev InnerB := List (String × ℚ)

/-- Outer aggregation mapping: normalized name → inner bucket, in
insertion order. -/
abbrev Buckets := List (String × InnerB)

/-- Python truthiness of `item.get(k)` for a string field. -/
def optTruthy : Option String → Bool
  | none => false
  | some s => s ≠ ""

/-- Model of `x or dflt` for an optional string field. -/
def pyGetOrStr (v : Option String) (dflt : String) : String :=
  match v with
  | some s => if s ≠ "" then s else dflt
  | none => dflt

/-- Add a quantity to a unit bucket, the `defaultdict(float)` update of
`main.py`: an existing unit accumulates, a new unit is appended. -/
def innerAdd : InnerB → String → ℚ → InnerB
  | [], u, q => [(u, q)]
  | (u', v) :: rest, u, q =>
    if u' = u then (u', v + q) :: rest else (u', v) :: innerAdd rest u q

/-- Add a quantity to the name/unit bucket, the outer `defaultdict`
update of `main.py`. -/
def outerAdd : Buckets → String → String → ℚ → Buckets
  | [], n, u, q => [(n, [(u, q)])]
  | (n', m) :: rest, n, u, q =>
    if n' = n then (n', innerAdd m u q) :: rest else (n', m) :: outerAdd rest n u q

/-- Body of the aggregation loop of `serve_ingredients_page` for one line
item: compute the unit with its falsy-default, keep items whose name and
quantity are truthy and whose quantity parses, and accumulate. -/
def processItem (buckets : Buckets) (item : LineItem) : Buckets :=
  let unit := pyLower (pyStrip (pyGetOrStr item.unit "count"))
  if optTruthy item.itemName ∧ optTruthy item.quantity then
    match parse_quantity (item.quantity.getD "") with
    | some numeric_quantity =>
      outerAdd buckets (pyLower (pyStrip (item.itemName.getD ""))) unit numeric_quantity
    | none => buckets
  else buckets

/-- The aggregation loop of `serve_ingredients_page` over all recipes. -/
def aggregate_ingredients (recipes : List AggRecipe) : Buckets :=
  recipes.foldl (fun b r => r.items.foldl processItem b) []

/-- Ordering of aggregation entries by ingredient name, the comparison
performed by Python's `sorted` on the dict items (names are unique, so
only the first tuple components are ever compared). -/
def bucketLe (a b : String × InnerB) : Prop := a.1 ≤ b.1

instance : DecidableRel bucketLe := fun a b => String.decidableLE a.1 b.1

instance : IsTotal (String × InnerB) bucketLe := ⟨fun a b => le_total a.1 b.1⟩

instance : IsTrans (String × InnerB) bucketLe := ⟨fun _ _ _ h1 h2 => le_trans h1 h2⟩

/-- Translation of the `/ingredients` aggregation of `main.py`: accumulate
every recipe's items, then sort entries by ingredient name. -/
def serve_ingredients_page (recipes : List AggRecipe) : Buckets :=
  List.insertionSort bucketLe (aggregate_ingredients recipes)

/-- Contribution of one line item under the amended claim: an item whose
name or quantity is missing or empty is skipped, a missing or empty unit
defaults to `count`, name and unit are trimmed and lowercased, and an
unparseable quantity is skipped. -/
def itemContrib (it : LineItem) : Option (String × String × ℚ) :=
  match it.itemName, it.quantity with
  | some n, some q =>
    if n ≠ "" ∧ q ≠ "" then
      match parse_quantity q with
      | some v =>
        some (pyLower (pyStrip n), pyLower (pyStrip (pyGetOrStr it.unit "count")), v)
      | none => none
    else none
  | _, _ => none

/-- All contributions across all recipes, in order. -/
def contribs (recipes : List AggRecipe) : List (String × String × ℚ) :=
  (recipes.flatMap (fun r => r.items)).filterMap itemContrib

/-- Contributed quantities for one normalized name/unit bucket. -/
def keyContribs (recipes : List AggRecipe) (n u : String) : List ℚ :=
  (contribs recipes).filterMap (fun c =>
    if c.1 = n ∧ c.2.1 = u then some c.2.2 else none)

/-- Summed quantity claimed for one normalized name/unit bucket. -/
def specSum (recipes : List AggRecipe) (n u : String) : ℚ :=
  (keyContribs recipes n u).sum

/-- Whether any item contributes to a given name/unit bucket. -/
def specHas (recipes : List AggRecipe) (n u : String) : Bool :=
  !(keyContribs recipes n u).isEmpty

/-- Lookup of one name/unit bucket in an aggregation result. -/
def bucketsFind (b : Buckets) (n u : String) : Option ℚ :=
  match alookup b n with
  | some inner => alookup inner u
  | none => none

/-- Contribution of one line item under the frozen claim's words, which
skip an item only when its name or its quantity is missing. -/
def strictContrib (it : LineItem) : Option (String × String × ℚ) :=
  match it.itemName, it.quantity with
  | some n, some q =>
    match parse_quantity q with
    | some v =>
      some (pyLower (pyStrip n), pyLower (pyStrip (pyGetOrStr it.unit "count")), v)
    | none => none
  | _, _ => none

/-- Aggregation as described by the frozen claim: accumulate the strict
contributions, then sort entries by ingredient name. -/
def serve_ingredients_claim (recipes : List AggRecipe) : Buckets :=
  List.insertionSort bucketLe
    (((recipes.flatMap (fun r => r.items)).filterMap strictContrib).foldl
      (fun b c => outerAdd b c.1 c.2.1 c.2.2) [])

/-- Contributions of a list of items to one name/unit bucket. -/
def keyContribsItems (items : List LineItem) (n u : String) : List ℚ :=
  (items.filterMap itemContrib).filterMap (fun c =>
    if c.1 = n ∧ c.2.1 = u then some c.2.2 else none)

/-- The committed database state of a successful generation. -/
def commitState (db : DB) (transcript_id : ℕ) (transcript_text : String)
    (d : List (String × Jval)) : DB :=
  { db with
      transcripts := db.transcripts.map (fun t =>
        if t.id = transcript_id then
          { t with full_text := transcript_text,
                   status := "processed",
                   recipe_id := some (mkRecipeFromData db.nextRid d).id }
        else t)
      recipes := db.recipes ++ [mkRecipeFromData db.nextRid d]
      nextRid := db.nextRid + 1 }

/-- Extract the string of a JSON string value. -/
def Jval.asStr : Jval → Option String
  | jstr s => some s
  | _ => none

/-- Length of a JSON string value, zero on any other kind of value. -/
def jstrLen : Jval → ℕ
  | jstr s => s.length
  | _ => 0

/-- Fixture database holding one pending transcript with id 1. -/
def dbW : DB :=
  { transcripts := [{ id := 1, full_text := "raw words", status := "pending", recipe_id := none }]
    recipes := []
    nextTid := 2
    nextRid := 1 }

/-- Structuring-service output naming just a recipe. -/
def soupJson : String := "\x7b\"recipe_name\": \"Soup\"\x7d"

/-- Parsed members of `soupJson`. -/
def soupD : List (String × Jval) := [("recipe_name", jstr "Soup")]

/-- Parsed members of the counterexample service output whose
recipe_name is present but empty. -/
def emptyNameD : List (String × Jval) := [("recipe_name", jstr "")]

/-- Fixture database with a transcript referencing recipe 5. -/
def dbD : DB :=
  { transcripts := [{ id := 1, full_text := "txt", status := "processed", recipe_id := some 5 }]
    recipes := [{ id := 5, recipe_name := jstr "Cake", provenance := none,
                  items := jarr [], chef_notes := jarr [] }]
    nextTid := 2
    nextRid := 6 }

/-- Empty fixture database. -/
def dbF : DB :=
  { transcripts := [], recipes := [], nextTid := 1, nextRid := 1 }

/-- Splitting a list at a separator yields one more part than there are
separator occurrences. -/
theorem splitOnChar_length (c : Char) : ∀ l : List Char,
    (splitOnChar c l).length = l.count c + 1
  | [] => by simp [splitOnChar]
  | x :: xs => by
    by_cases h : x = c
    · simp [splitOnChar, h, splitOnChar_length c xs, List.count_cons]
    · have ih := splitOnChar_length c xs
      cases hr : splitOnChar c xs with
      | nil => rw [hr] at ih; simp at ih
      | cons y ys =>
        rw [hr] at ih
        simp only [List.length_cons] at ih
        simp [splitOnChar, h, hr, List.count_cons, ih]

/-- The quantity parser agrees everywhere with the claimed contract. -/
theorem parse_quantity_eq_claim_aux (s : String) :
    parse_quantity s = parse_quantity_claim s := by
  unfold parse_quantity parse_quantity_claim
  by_cases hs : s = ""
  · subst hs; rfl
  · rw [if_neg hs]
    cases hf : pyFloat s with
    | some v => rfl
    | none =>
      have hlen := splitOnChar_length '/' s.toList
      by_cases hm : '/' ∈ s.toList
      · rw [if_pos hm]
        by_cases hc : s.toList.count '/' = 1
        · rw [if_pos hc]
        · rw [if_neg hc]
          have hpos : 0 < s.toList.count '/' := List.count_pos_iff.mpr hm
          have h2 : 2 ≤ s.toList.count '/' := by omega
          cases h1 : splitOnChar '/' s.toList with
          | nil => rfl
          | cons a t =>
            cases t with
            | nil => rfl
            | cons b t2 =>
              cases t2 with
              | nil =>
                rw [h1] at hlen
                simp only [List.length_cons, List.length_nil] at hlen
                omega
              | cons c t3 => rfl
      · rw [if_neg hm]
        have hz : s.toList.count '/' = 0 := by
          rw [List.count_eq_zero]
          exact hm
        rw [hz]
        simp

/-- Unfolding equation for association-list lookup at a cons cell. -/
theorem alookup_cons {α : Type} (k : String) (v : α) (l : List (String × α)) (key : String) :
    alookup ((k, v) :: l) key = if k = key then some v else alookup l key := rfl

/-- Looking up after an inner-bucket update: the updated unit accumulates,
every other unit is unchanged. -/
theorem alookup_innerAdd (m : InnerB) (u : String) (q : ℚ) (u' : String) :
    alookup (innerAdd m u q) u' =
      if u' = u then some ((alookup m u).getD 0 + q) else alookup m u' := by
  induction m with
  | nil =>
    by_cases h : u' = u
    · subst h; simp [innerAdd, alookup, zero_add]
    · have h2 : ¬ u = u' := fun hh => h hh.symm
      simp [innerAdd, alookup, h, h2]
  | cons a rest ih =>
    obtain ⟨k, v⟩ := a
    by_cases hk : k = u
    · subst hk
      rw [show innerAdd ((k, v) :: rest) k q = (k, v + q) :: rest from by
        simp [innerAdd]]
      by_cases h : k = u'
      · subst h; simp [alookup_cons]
      · have h2 : ¬ u' = k := fun hh => h hh.symm
        simp [alookup_cons, h, h2]
    · rw [show innerAdd ((k, v) :: rest) u q = (k, v) :: innerAdd rest u q from by
        simp [innerAdd, hk]]
      by_cases h : k = u'
      · subst h
        have h2 : ¬ k = u := hk
        simp [alookup_cons, hk, h2]
      · simp [alookup_cons, h, hk, ih]

/-- Looking up after an outer update: the updated name/unit bucket
accumulates, every other bucket is unchanged. -/
theorem bucketsFind_outerAdd (b : Buckets) (n u : String) (q : ℚ) (n' u' : String) :
    bucketsFind (outerAdd b n u q) n' u' =
      if n' = n ∧ u' = u then some ((bucketsFind b n u).getD 0 + q)
      else bucketsFind b n' u' := by
  induction b with
  | nil =>
    by_cases hn : n' = n
    · subst hn
      by_cases hu : u' = u
      · subst hu; simp [outerAdd, bucketsFind, alookup, zero_add]
      · have h2 : ¬ u = u' := fun hh => hu hh.symm
        simp [outerAdd, bucketsFind, alookup, hu, h2]
    · have h2 : ¬ n = n' := fun hh => hn hh.symm
      simp [outerAdd, bucketsFind, alookup, hn, h2]
  | cons a rest ih =>
    obtain ⟨k, m⟩ := a
    by_cases hk : k = n
    · subst hk
      rw [show outerAdd ((k, m) :: rest) k u q = (k, innerAdd m u q) :: rest from by
        simp [outerAdd]]
      by_cases hn : k = n'
      · subst hn
        simp [bucketsFind, alookup_cons, alookup_innerAdd]
      · have h2 : ¬ n' = k := fun hh => hn hh.symm
        simp [bucketsFind, alookup_cons, hn, h2]
    · rw [show outerAdd ((k, m) :: rest) n u q = (k, m) :: outerAdd rest n u q from by
        simp [outerAdd, hk]]
      by_cases hn : k = n'
      · subst hn
        have h2 : ¬ k = n := hk
        simp [bucketsFind, alookup_cons, hk, h2]
      · simp only [bucketsFind, alookup_cons, if_neg hn, if_neg hk]
        rw [show (match alookup (outerAdd rest n u q) n' with
              | some inner => alookup inner u'
              | none => none) = bucketsFind (outerAdd rest n u q) n' u' from rfl]
        rw [ih]
        rfl

/-- The loop body of the aggregation equals the bucket update determined
by the item's contribution. -/
theorem processItem_eq (b : Buckets) (it : LineItem) :
    processItem b it =
      match itemContrib it with
      | some c => outerAdd b c.1 c.2.1 c.2.2
      | none => b := by
  obtain ⟨nm, qt, un⟩ := it
  cases nm with
  | none => simp [processItem, itemContrib, optTruthy]
  | some n =>
    cases qt with
    | none => simp [processItem, itemContrib, optTruthy]
    | some q =>
      by_cases hn : n = ""
      · subst hn; simp [processItem, itemContrib, optTruthy]
      · by_cases hq : q = ""
        · subst hq; simp [processItem, itemContrib, optTruthy]
        · simp only [processItem, itemContrib, optTruthy, Option.getD_some]
          rw [if_pos ⟨by simpa using hn, by simpa using hq⟩, if_pos ⟨hn, hq⟩]
          cases parse_quantity q <;> rfl

/-- Folding the aggregation loop over an item list: each bucket receives
the sum of the matching contributions, on top of whatever was in the
accumulator. -/
theorem bucketsFind_foldl (items : List LineItem) :
    ∀ (b : Buckets) (n u : String),
      bucketsFind (items.foldl processItem b) n u =
        if (keyContribsItems items n u).isEmpty then bucketsFind b n u
        else some ((bucketsFind b n u).getD 0 + (keyContribsItems items n u).sum) := by
  induction items with
  | nil => intro b n u; simp [keyContribsItems]
  | cons it rest ih =>
    intro b n u
    rw [List.foldl_cons, processItem_eq]
    cases hc : itemContrib it with
    | none =>
      have hkeys : keyContribsItems (it :: rest) n u = keyContribsItems rest n u := by
        simp [keyContribsItems, List.filterMap_cons, hc]
      rw [hkeys]
      exact ih b n u
    | some c =>
      obtain ⟨n₀, u₀, q₀⟩ := c
      by_cases hm : n₀ = n ∧ u₀ = u
      · have hkeys : keyContribsItems (it :: rest) n u = q₀ :: keyContribsItems rest n u := by
          simp only [keyContribsItems, List.filterMap_cons, hc]
          rw [if_pos hm]
        have houter : bucketsFind (outerAdd b n₀ u₀ q₀) n u =
            some ((bucketsFind b n u).getD 0 + q₀) := by
          rw [bucketsFind_outerAdd, if_pos ⟨hm.1.symm, hm.2.symm⟩, hm.1, hm.2]
        rw [hkeys, ih (outerAdd b n₀ u₀ q₀) n u, houter]
        cases hk : keyContribsItems rest n u with
        | nil => simp [add_zero]
        | cons x xs => simp [add_assoc]
      · have hkeys : keyContribsItems (it :: rest) n u = keyContribsItems rest n u := by
          simp only [keyContribsItems, List.filterMap_cons, hc]
          rw [if_neg hm]
        have houter : bucketsFind (outerAdd b n₀ u₀ q₀) n u = bucketsFind b n u := by
          rw [bucketsFind_outerAdd, if_neg (fun hx => hm ⟨hx.1.symm, hx.2.symm⟩)]
        rw [hkeys, ih (outerAdd b n₀ u₀ q₀) n u, houter]

/-- The nested per-recipe fold equals one fold over the joined items. -/
theorem aggregate_eq_join (rs : List AggRecipe) :
    ∀ b : Buckets,
      rs.foldl (fun b r => r.items.foldl processItem b) b =
        (rs.flatMap (fun r => r.items)).foldl processItem b := by
  induction rs with
  | nil => intro b; rfl
  | cons r rest ih =>
    intro b
    rw [List.foldl_cons, List.flatMap_cons, List.foldl_append, ih]

/-- Content of the aggregation before sorting: each bucket holds exactly
the sum of the matching contributions. -/
theorem bucketsFind_aggregate (rs : List AggRecipe) (n u : String) :
    bucketsFind (aggregate_ingredients rs) n u =
      if specHas rs n u then some (specSum rs n u) else none := by
  have h2 : keyContribsItems (rs.flatMap (fun r => r.items)) n u = keyContribs rs n u := rfl
  rw [aggregate_ingredients, aggregate_eq_join rs [], bucketsFind_foldl, h2]
  by_cases hk : (keyContribs rs n u).isEmpty
  · rw [if_pos hk]
    have hs : specHas rs n u = false := by
      simp [specHas, hk]
    rw [hs]
    simp [bucketsFind, alookup]
  · rw [if_neg hk]
    have hs : specHas rs n u = true := by
      simp only [specHas]
      cases hkk : (keyContribs rs n u).isEmpty
      · rfl
      · exact absurd hkk hk
    rw [hs, if_pos rfl]
    simp [bucketsFind, alookup, specSum, zero_add]

/-- Keys after an outer update: an existing name leaves the key list
unchanged, a new name is appended. -/
theorem outerAdd_keys (b : Buckets) (n u : String) (q : ℚ) :
    (outerAdd b n u q).map Prod.fst =
      if n ∈ b.map Prod.fst then b.map Prod.fst else b.map Prod.fst ++ [n] := by
  induction b with
  | nil => simp [outerAdd]
  | cons a rest ih =>
    obtain ⟨k, m⟩ := a
    by_cases hk : k = n
    · subst hk
      simp [outerAdd]
    · have h2 : ¬ n = k := fun hh => hk hh.symm
      by_cases hmem : n ∈ rest.map Prod.fst
      · simp [outerAdd, hk, ih, hmem, h2]
      · simp [outerAdd, hk, ih, hmem, h2]

/-- An outer update preserves distinctness of the bucket names. -/
theorem outerAdd_nodup (b : Buckets) (n u : String) (q : ℚ)
    (h : (b.map Prod.fst).Nodup) : ((outerAdd b n u q).map Prod.fst).Nodup := by
  rw [outerAdd_keys]
  by_cases hmem : n ∈ b.map Prod.fst
  · rw [if_pos hmem]; exact h
  · rw [if_neg hmem]
    simp [List.nodup_append, h, hmem]

/-- The aggregation loop preserves distinctness of the bucket names. -/
theorem foldl_nodup (items : List LineItem) :
    ∀ b : Buckets, (b.map Prod.fst).Nodup →
      ((items.foldl processItem b).map Prod.fst).Nodup := by
  induction items with
  | nil => intro b h; exact h
  | cons it rest ih =>
    intro b h
    rw [List.foldl_cons, processItem_eq]
    cases hc : itemContrib it with
    | none => exact ih b h
    | some c => exact ih _ (outerAdd_nodup b c.1 c.2.1 c.2.2 h)

/-- The aggregation result has distinct bucket names. -/
theorem aggregate_nodup (rs : List AggRecipe) :
    ((aggregate_ingredients rs).map Prod.fst).Nodup := by
  rw [aggregate_ingredients, aggregate_eq_join rs []]
  exact foldl_nodup _ [] (by simp)

/-- Association-list lookup is invariant under permutation when the keys
are distinct. -/
theorem alookup_perm {α : Type} {l₁ l₂ : List (String × α)} (p : l₁.Perm l₂)
    (nd : (l₁.map Prod.fst).Nodup) (k : String) : alookup l₁ k = alookup l₂ k := by
  induction p with
  | nil => rfl
  | cons x p ih =>
    obtain ⟨xk, xv⟩ := x
    simp only [List.map_cons, List.nodup_cons] at nd
    simp only [alookup_cons]
    rw [ih nd.2]
  | swap x y l =>
    obtain ⟨xk, xv⟩ := x
    obtain ⟨yk, yv⟩ := y
    simp only [List.map_cons, List.nodup_cons, List.mem_cons] at nd
    have hne : yk ≠ xk := fun hh => nd.1 (Or.inl hh)
    simp only [alookup_cons]
    by_cases h1 : yk = k
    · subst h1
      rw [if_pos rfl, if_neg (fun hh => hne hh.symm), if_pos rfl]
    · by_cases h2 : xk = k
      · subst h2
        rw [if_neg h1, if_pos rfl, if_pos rfl]
      · rw [if_neg h1, if_neg h2, if_neg h2, if_neg h1]
  | trans p₁ p₂ ih₁ ih₂ =>
    rw [ih₁ nd, ih₂ (((p₁.map Prod.fst).nodup_iff).mp nd)]

/-- Exhaustive case analysis of the generation workflow: every execution
either fails with an error and leaves the database untouched, or commits
exactly the new recipe together with the transcript update. -/
theorem generate_cases (db : DB) (tid : ℕ) (text : String) (llm : Option String)
    (db' : DB) (res : Except GenError RecipeRow)
    (h : generate_recipe_from_transcript db tid text llm = (db', res)) :
    (∃ e, res = .error e ∧ db' = db) ∨
    (∃ raw d t,
      llm = some raw ∧ raw ≠ "" ∧ parse_llm_json_output raw = some (jobj d) ∧
      db.transcripts.find? (fun t' => t'.id = tid) = some t ∧
      res = .ok (mkRecipeFromData db.nextRid d) ∧
      db' = commitState db tid text d) := by
  unfold generate_recipe_from_transcript at h
  cases hf : db.transcripts.find? (fun t' => t'.id = tid) with
  | none =>
    rw [hf] at h
    rw [Prod.mk.injEq] at h
    exact Or.inl ⟨.notFound, h.2.symm, h.1.symm⟩
  | some t0 =>
    rw [hf] at h
    dsimp only at h
    cases llm with
    | none =>
      rw [Prod.mk.injEq] at h
      exact Or.inl ⟨.serviceFailed, h.2.symm, h.1.symm⟩
    | some raw =>
      dsimp only at h
      by_cases hr : raw = ""
      · rw [if_pos hr, Prod.mk.injEq] at h
        exact Or.inl ⟨.serviceFailed, h.2.symm, h.1.symm⟩
      · rw [if_neg hr] at h
        cases hp : parse_llm_json_output raw with
        | none =>
          rw [hp, Prod.mk.injEq] at h
          exact Or.inl ⟨.invalidStructure, h.2.symm, h.1.symm⟩
        | some rd =>
          rw [hp] at h
          dsimp only at h
          by_cases ht : pyTruthy rd
          · rw [if_pos ht] at h
            cases rd with
            | jobj d =>
              rw [Prod.mk.injEq] at h
              exact Or.inr ⟨raw, d, t0, rfl, hr, hp, rfl, h.2.symm, h.1.symm⟩
            | jnull => rw [Prod.mk.injEq] at h; exact Or.inl ⟨.attributeError, h.2.symm, h.1.symm⟩
            | jbool bb => rw [Prod.mk.injEq] at h; exact Or.inl ⟨.attributeError, h.2.symm, h.1.symm⟩
            | jnum qq => rw [Prod.mk.injEq] at h; exact Or.inl ⟨.attributeError, h.2.symm, h.1.symm⟩
            | jstr ss => rw [Prod.mk.injEq] at h; exact Or.inl ⟨.attributeError, h.2.symm, h.1.symm⟩
            | jarr aa => rw [Prod.mk.injEq] at h; exact Or.inl ⟨.attributeError, h.2.symm, h.1.symm⟩
          · rw [if_neg ht, Prod.mk.injEq] at h
            exact Or.inl ⟨.invalidStructure, h.2.symm, h.1.symm⟩

/-- The membership facts of a committed generation: the found transcript
is a stored row with the requested id, and its updated copy is stored
afterwards. -/
theorem commit_transcript_mem (db : DB) (tid : ℕ) (text : String)
    (d : List (String × Jval)) (t0 : TranscriptRow)
    (hf : db.transcripts.find? (fun t' => t'.id = tid) = some t0) :
    t0 ∈ db.transcripts ∧ t0.id = tid ∧
    { t0 with full_text := text, status := "processed",
              recipe_id := some (mkRecipeFromData db.nextRid d).id }
      ∈ (commitState db tid text d).transcripts := by
  have hmem : t0 ∈ db.transcripts := List.mem_of_find?_eq_some hf
  have hid : t0.id = tid := by
    have hp := List.find?_some hf
    simpa using hp
  refine ⟨hmem, hid, ?_⟩
  unfold commitState
  dsimp only
  have heq : (fun t =>
      if t.id = tid then
        { t with full_text := text, status := "processed",
                 recipe_id := some (mkRecipeFromData db.nextRid d).id }
      else t) t0 =
      { t0 with full_text := text, status := "processed",
                recipe_id := some (mkRecipeFromData db.nextRid d).id } := by
    dsimp only
    rw [if_pos hid]
  exact heq ▸ List.mem_map_of_mem _ hmem

/-- C3.  The generation workflow is atomic: every execution either
terminates with an error and leaves the stored state untouched — in
particular when the structuring-service call fails or its output fails to
parse, the transcript-text update is not committed — or commits, together,
exactly one new recipe and the transcript update (text, status, link). -/
theorem generation_atomicity :
    ∀ (db : DB) (tid : ℕ) (text : String) (llm : Option String) (db' : DB)
      (res : Except GenError RecipeRow),
      generate_recipe_from_transcript db tid text llm = (db', res) →
      ((∀ e, res = Except.error e → db' = db)
       ∧ (∀ r, res = Except.ok r →
            db'.recipes = db.recipes ++ [r]
            ∧ ∃ t ∈ db.transcripts, t.id = tid ∧
                { t with full_text := text, status := "processed",
                         recipe_id := some r.id } ∈ db'.transcripts)) := by
  intro db tid text llm db' res h
  rcases generate_cases db tid text llm db' res h with
    ⟨e, he, hdb⟩ | ⟨raw, d, t0, hllm, hraw, hp, hf, hres, hdb⟩
  · subst hdb; subst he
    exact ⟨fun _ _ => rfl, fun r hr => nomatch hr⟩
  · subst hdb; subst hres
    constructor
    · intro e' he'; exact nomatch he'
    · intro r hr
      have hr' : mkRecipeFromData db.nextRid d = r := by
        injection hr
      subst hr'
      obtain ⟨hmem, hid, hmem2⟩ := commit_transcript_mem db tid text d t0 hf
      exact ⟨rfl, t0, hmem, hid, hmem2⟩

/-- Witness for C3: with the service oracle failing the database is
unchanged, and with a successful oracle the committed state holds the new
recipe. -/
theorem generation_atomicity_witness :
    (generate_recipe_from_transcript dbW 1 "edited" none).1 = dbW
    ∧ (commitState dbW 1 "edited" soupD).recipes
        = dbW.recipes ++ [mkRecipeFromData dbW.nextRid soupD] :=
  ⟨(generation_atomicity dbW 1 "edited" none dbW (.error .serviceFailed) rfl).1
      .serviceFailed rfl,
   ((generation_atomicity dbW 1 "edited" (some soupJson)
      (commitState dbW 1 "edited" soupD) (.ok (mkRecipeFromData dbW.nextRid soupD)) rfl).2
      (mkRecipeFromData dbW.nextRid soupD) rfl).1⟩

/-- C4 (amended).  A successful generation call creates exactly one new
Recipe, constructed from the parsed fields with each default applied when
the field is missing or falsy (null, empty, zero, false): recipe_name
falls back to "Untitled Recipe", provenance to null, items and chef_notes
to the empty list; afterwards the transcript's status is "processed" and
its recipe link points at the new Recipe's id, and that Recipe is
returned. -/
theorem generation_success_construction :
    ∀ (db : DB) (tid : ℕ) (text raw : String) (d : List (String × Jval))
      (t : TranscriptRow) (db' : DB) (r : RecipeRow),
      parse_llm_json_output raw = some (jobj d) →
      db.transcripts.find? (fun t' => t'.id = tid) = some t →
      generate_recipe_from_transcript db tid text (some raw) = (db', Except.ok r) →
      r = mkRecipeFromData db.nextRid d
      ∧ db'.recipes = db.recipes ++ [r]
      ∧ t ∈ db.transcripts ∧ t.id = tid
      ∧ { t with full_text := text, status := "processed",
                 recipe_id := some r.id } ∈ db'.transcripts := by
  intro db tid text raw d t db' r hp hf h
  rcases generate_cases db tid text (some raw) db' (Except.ok r) h with
    ⟨e, he, _⟩ | ⟨raw', d', t0, hllm, _, hp', hf', hres, hdb⟩
  · exact nomatch he
  · have hraw : raw' = raw := by injection hllm with hh; exact hh.symm
    subst hraw
    rw [hp] at hp'
    have hd : d = d' := by
      injection hp' with hh
      injection hh
    subst hd
    have ht0 : t0 = t := by
      rw [hf] at hf'
      injection hf' with hh
      exact hh.symm
    subst ht0
    have hr : mkRecipeFromData db.nextRid d = r := by
      injection hres with hh
      exact hh.symm
    subst hr
    subst hdb
    obtain ⟨hmem, hid, hmem2⟩ := commit_transcript_mem db tid text d t0 hf
    exact ⟨rfl, rfl, hmem, hid, hmem2⟩

/-- Witness for C4: a concrete successful generation stores and returns
the recipe built by the falsy-default construction. -/
theorem generation_success_construction_witness :
    mkRecipeFromData dbW.nextRid soupD = mkRecipeFromData dbW.nextRid soupD
    ∧ (commitState dbW 1 "edited" soupD).recipes
        = dbW.recipes ++ [mkRecipeFromData dbW.nextRid soupD]
    ∧ { id := 1, full_text := "raw words", status := "pending",
        recipe_id := none : TranscriptRow } ∈ dbW.transcripts
    ∧ (1 : ℕ) = 1
    ∧ { id := 1, full_text := "edited", status := "processed",
        recipe_id := some (mkRecipeFromData dbW.nextRid soupD).id : TranscriptRow }
        ∈ (commitState dbW 1 "edited" soupD).transcripts :=
  generation_success_construction dbW 1 "edited" soupJson soupD
    { id := 1, full_text := "raw words", status := "pending", recipe_id := none }
    (commitState dbW 1 "edited" soupD) (mkRecipeFromData dbW.nextRid soupD)
    rfl rfl rfl

/-- Counterexample for C4 as frozen: on a parsed object whose recipe_name
is present but empty, the code replaces it by "Untitled Recipe", while the
claimed construction (defaults only for missing fields) keeps the empty
string. -/
theorem generation_defaults_counterexample :
    (generate_recipe_from_transcript dbW 1 "txt" (some "\x7b\"recipe_name\": \"\"\x7d")).2
      = Except.ok (mkRecipeFromData dbW.nextRid emptyNameD)
    ∧ (mkRecipeFromData dbW.nextRid emptyNameD).recipe_name.asStr = some "Untitled Recipe"
    ∧ (mkRecipeClaim dbW.nextRid emptyNameD).recipe_name.asStr = some ""
    ∧ decide ((some "Untitled Recipe" : Option String) = some "") = false :=
  ⟨rfl, rfl, rfl, rfl⟩

/-- C6.  When no stored transcript has the requested id, the generation
endpoint fails with not-found, leaves the database unchanged, and the
result does not depend on the structuring-service oracle (the service is
never invoked). -/
theorem generation_missing_transcript :
    ∀ (db : DB) (tid : ℕ) (text : String) (llm : Option String),
      (∀ t ∈ db.transcripts, t.id ≠ tid) →
      generate_recipe_from_transcript db tid text llm = (db, .error .notFound) := by
  intro db tid text llm h
  have hf : db.transcripts.find? (fun t' => t'.id = tid) = none := by
    rw [List.find?_eq_none]
    intro t ht
    simp [h t ht]
  unfold generate_recipe_from_transcript
  rw [hf]

/-- Witness for C6: a concrete lookup of an absent id returns not-found
and does not touch the database, whatever the oracle. -/
theorem generation_missing_transcript_witness :
    generate_recipe_from_transcript dbW 2 "x" (some "ignored") = (dbW, .error .notFound)
    ∧ generate_recipe_from_transcript dbW 2 "x" none = (dbW, .error .notFound) :=
  ⟨generation_missing_transcript dbW 2 "x" (some "ignored") (by decide),
   generation_missing_transcript dbW 2 "x" none (by decide)⟩

/-- C7.  Deleting a recipe that a transcript references removes the
recipe row and clears the transcript's link, while the transcript row
itself — id, text, status — is preserved. -/
theorem delete_recipe_clears_link :
    ∀ (db : DB) (rid : ℕ) (t : TranscriptRow) (r : RecipeRow),
      t ∈ db.transcripts → t.recipe_id = some rid →
      r ∈ db.recipes → r.id = rid →
      (delete_recipe db rid).2 = .ok ()
      ∧ (∀ r' ∈ (delete_recipe db rid).1.recipes, r'.id ≠ rid)
      ∧ { t with recipe_id := none } ∈ (delete_recipe db rid).1.transcripts := by
  intro db rid t r ht htl hr hrid
  have hfind : ∃ r0, db.recipes.find? (fun r' => r'.id = rid) = some r0 := by
    have hs : (db.recipes.find? (fun r' => r'.id = rid)).isSome := by
      rw [List.find?_isSome]
      exact ⟨r, hr, by simp [hrid]⟩
    exact Option.isSome_iff_exists.mp hs
  obtain ⟨r0, hf⟩ := hfind
  unfold delete_recipe
  rw [hf]
  refine ⟨rfl, ?_, ?_⟩
  · intro r' hr'
    have := List.of_mem_filter hr'
    simpa using this
  · dsimp only
    have heq : (fun t' =>
        if t'.recipe_id = some rid then { t' with recipe_id := none } else t') t
        = { t with recipe_id := none } := by
      dsimp only
      rw [if_pos htl]
    exact heq ▸ List.mem_map_of_mem _ ht

/-- Witness for C7: deleting the referenced recipe succeeds and the
transcript survives with its link cleared. -/
theorem delete_recipe_clears_link_witness :
    (delete_recipe dbD 5).2 = .ok ()
    ∧ { id := 1, full_text := "txt", status := "processed",
        recipe_id := none : TranscriptRow } ∈ (delete_recipe dbD 5).1.transcripts :=
  ⟨(delete_recipe_clears_link dbD 5
      { id := 1, full_text := "txt", status := "processed", recipe_id := some 5 }
      { id := 5, recipe_name := jstr "Cake", provenance := none,
        items := jarr [], chef_notes := jarr [] }
      (List.mem_cons_self _ _) rfl (List.mem_cons_self _ _) rfl).1,
   (delete_recipe_clears_link dbD 5
      { id := 1, full_text := "txt", status := "processed", recipe_id := some 5 }
      { id := 5, recipe_name := jstr "Cake", provenance := none,
        items := jarr [], chef_notes := jarr [] }
      (List.mem_cons_self _ _) rfl (List.mem_cons_self _ _) rfl).2.2⟩

unseal Rat.add Rat.mul Rat.inv in
/-- C5.  Behaviour of the LLM output parser at the specified inputs, plus
the failing input: a fenced `json` block and a bare object both parse to
the object, non-JSON text yields no structured data, and — against the
function's own `dict | None` annotation — a bare JSON array is returned
as an array, not an object. -/
theorem parse_llm_output_behaviour :
    parse_llm_json_output "```json\n\x7b \"recipe_name\": \"Soup\" \x7d\n```"
      = some (jobj [("recipe_name", jstr "Soup")])
    ∧ parse_llm_json_output "\x7b\"recipe_name\": \"Soup\"\x7d"
      = some (jobj [("recipe_name", jstr "Soup")])
    ∧ parse_llm_json_output "this is not json" = none
    ∧ parse_llm_json_output "[1, 2]" = some (jarr [jnum 1, jnum 2])
    ∧ Jval.isObj (jarr [jnum 1, jnum 2]) = false :=
  ⟨rfl, rfl, rfl, rfl, rfl⟩

/-- C8.  The generation workflow stores whatever truthy JSON value the
service returned under `items`: on this input the stored recipe's items
column holds the string "oops", which is not a list, refuting the
invariant for the generation path. -/
theorem generation_items_not_list :
    ((generate_recipe_from_transcript dbW 1 "text"
        (some "\x7b\"recipe_name\": \"Soup\", \"items\": \"oops\"\x7d")).1).recipes.map
      (fun r => r.items) = [jstr "oops"]
    ∧ Jval.isArr (jstr "oops") = false :=
  ⟨rfl, rfl⟩

/-- C9.  The form-based create handler performs no length validation: an
empty recipe_name is stored as-is, so the stored name's length is 0,
violating the claimed 1-to-100-character bound (the bound exists only in
the unused `RecipeCreate` schema). -/
theorem form_create_empty_name :
    ((create_recipe_from_form dbF "" "" ["1"] ["cup"] ["flour"] none).1).recipes.map
      (fun r => r.recipe_name) = [jstr ""]
    ∧ ((create_recipe_from_form dbF "" "" ["1"] ["cup"] ["flour"] none).1).recipes.map
      (fun r => jstrLen r.recipe_name) = [0]
    ∧ decide (1 ≤ (0 : ℕ)) = false :=
  ⟨rfl, rfl, rfl⟩

unseal Rat.add Rat.mul Rat.inv in
/-- C1 (amended).  The ingredients aggregation: items whose name or
quantity is missing or empty are skipped, names and units are trimmed and
lowercased with a missing or empty unit defaulting to "count",
unparseable quantities are skipped, the remaining quantities are summed
per normalized name and unit, and the entries are ordered alphabetically
by normalized name; on the two Flour/flour recipes the result is the
single entry flour ↦ cup ↦ 3. -/
theorem serve_ingredients_aggregation :
    (∀ recipes : List AggRecipe,
      List.Sorted bucketLe (serve_ingredients_page recipes)
      ∧ ∀ n u : String,
          bucketsFind (serve_ingredients_page recipes) n u =
            if specHas recipes n u then some (specSum recipes n u) else none)
    ∧ serve_ingredients_page
        [⟨[⟨some "Flour", some "1", some "cup"⟩]⟩, ⟨[⟨some "flour", some "2", some "cup"⟩]⟩]
        = [("flour", [("cup", 3)])] := by
  constructor
  · intro recipes
    constructor
    · exact List.sorted_insertionSort bucketLe (aggregate_ingredients recipes)
    · intro n u
      have hperm : (serve_ingredients_page recipes).Perm (aggregate_ingredients recipes) :=
        List.perm_insertionSort bucketLe (aggregate_ingredients recipes)
      have hnd : ((serve_ingredients_page recipes).map Prod.fst).Nodup :=
        ((hperm.map Prod.fst).nodup_iff).mpr (aggregate_nodup recipes)
      have hl : alookup (serve_ingredients_page recipes) n
          = alookup (aggregate_ingredients recipes) n :=
        alookup_perm hperm hnd n
      have hbf : bucketsFind (serve_ingredients_page recipes) n u
          = bucketsFind (aggregate_ingredients recipes) n u := by
        unfold bucketsFind
        rw [hl]
      rw [hbf]
      exact bucketsFind_aggregate recipes n u
  · rfl

unseal Rat.add Rat.mul Rat.inv in
/-- Counterexample for C1 as frozen: an item whose name is present but
empty is skipped by the code, while the claimed algorithm (skip only on a
missing name) would produce an entry under the empty normalized name. -/
theorem serve_ingredients_counterexample :
    serve_ingredients_page [⟨[⟨some "", some "1", some "cup"⟩]⟩] = []
    ∧ serve_ingredients_claim [⟨[⟨some "", some "1", some "cup"⟩]⟩]
        = [("", [("cup", 1)])]
    ∧ decide (([] : Buckets) = [("", [("cup", (1 : ℚ))])]) = false :=
  ⟨rfl, rfl, rfl⟩

unseal Rat.add Rat.mul Rat.inv in
/-- C2.  The quantity parser meets the claimed contract on every string:
a decimal parses to its value, otherwise a single-slash fraction with
parseable sides and nonzero denominator parses to the quotient, otherwise
the result is none; and the specified examples evaluate as claimed. -/
theorem parse_quantity_contract :
    (∀ s : String, parse_quantity s = parse_quantity_claim s)
    ∧ parse_quantity "2" = some 2
    ∧ parse_quantity "1/2" = some (1 / 2 : ℚ)
    ∧ parse_quantity "1.5" = some (3 / 2 : ℚ)
    ∧ parse_quantity "abc" = none
    ∧ parse_quantity "1/0" = none
    ∧ parse_quantity "" = none :=
  ⟨parse_quantity_eq_claim_aux, by decide, by decide, by decide, by decide,
   by decide, by decide⟩

/-- C10.  The quantity parser is total — every input yields either a
value or none — and the division guard and unpacking guard hold at the
indicated inputs: a zero denominator and a double slash both yield none
rather than an error. -/
theorem parse_quantity_total :
    (∀ s : String, parse_quantity s = none ∨ ∃ q : ℚ, parse_quantity s = some q)
    ∧ parse_quantity "1/0" = none
    ∧ parse_quantity "1/2/3" = none :=
  ⟨fun s => by
      cases h : parse_quantity s with
      | none => exact Or.inl rfl
      | some q => exact Or.inr ⟨q, rfl⟩,
   by decide, by decide⟩
